import Mathlib

/-!
# CPU core of `cpu/cpu.go`

A shallow embedding of the fetch/decode/execute core in `cpu/cpu.go`.

* `uint16` and `byte` values are natural numbers; every Go operation that can
  leave the range of its type is followed by an explicit `% 65536` or `% 256`,
  and every `byte(..)` / `uint16(..)` conversion is written as the reduction
  it performs.
* The Go methods mutate the receiver in place; here each method takes the
  state and returns the new state.
* A Go `panic` is an `Except` error.  Because the receiver is mutated in
  place, the state at the moment of the panic is observable, so the error of
  `Step` carries that state together with the panic value.
-/

namespace Chip8

/-! ## Data model -/

/-- The anonymous struct `Flags struct { Z, N, H, C bool }` of `CPU`. -/
structure FlagBits where
  Z : Bool
  N : Bool
  H : Bool
  C : Bool
  deriving DecidableEq, Repr

/-- The type `Memory`: a single slice of bytes. -/
structure Memory where
  RAM : List Nat
  deriving DecidableEq, Repr

/-- The type `CPU`: six `uint16` registers, the flag booleans and the memory
the CPU points to. -/
structure CPU where
  AF : Nat
  BC : Nat
  DE : Nat
  HL : Nat
  PC : Nat
  SP : Nat
  Flags : FlagBits
  Memory : Memory
  deriving DecidableEq, Repr

/-- The values a Go `panic` can carry in this program: the run-time panic of
an out-of-range slice index (with the index and the length of the slice), and
the explicit panic of `Step`, whose message is formatted from the opcode and
an address. -/
inductive Panic where
  | indexOutOfRange (index length : Nat)
  | unimplementedOpcode (opcode address : Nat)
  deriving DecidableEq, Repr

/-- The ranges the Go types impose: registers are `uint16`, memory cells are
`byte`. -/
def CPU.WF (c : CPU) : Prop :=
  c.AF < 65536 ∧ c.BC < 65536 ∧ c.DE < 65536 ∧ c.HL < 65536 ∧
  c.PC < 65536 ∧ c.SP < 65536 ∧ ∀ x ∈ c.Memory.RAM, x < 256

/-! ## Memory -/

/-- Method `func (m *Memory) Read(addr uint16) byte { return m.RAM[addr] }` -/
def Memory.Read (m : Memory) (addr : Nat) : Except Panic Nat :=
  match m.RAM[addr]? with
  | some v => .ok v
  | none => .error (.indexOutOfRange addr m.RAM.length)

/-- Method `func (m *Memory) Write(addr uint16, value byte) { m.RAM[addr] = value }` -/
def Memory.Write (m : Memory) (addr value : Nat) : Except Panic Memory :=
  if addr < m.RAM.length then .ok { m with RAM := m.RAM.set addr value }
  else .error (.indexOutOfRange addr m.RAM.length)

/-! ## Getters and setters -/

/-- Getter `func (c *CPU) A() byte { return byte(c.AF >> 8) }` -/
def CPU.A (c : CPU) : Nat := (c.AF >>> 8) % 256
/-- Getter `func (c *CPU) F() byte { return byte(c.AF & 0xFF) }` -/
def CPU.F (c : CPU) : Nat := (c.AF &&& 0xFF) % 256
/-- Getter `func (c *CPU) B() byte { return byte(c.BC >> 8) }` -/
def CPU.B (c : CPU) : Nat := (c.BC >>> 8) % 256
/-- Getter `func (c *CPU) C() byte { return byte(c.BC & 0xFF) }` -/
def CPU.C (c : CPU) : Nat := (c.BC &&& 0xFF) % 256
/-- Getter `func (c *CPU) D() byte { return byte(c.DE >> 8) }` -/
def CPU.D (c : CPU) : Nat := (c.DE >>> 8) % 256
/-- Getter `func (c *CPU) E() byte { return byte(c.DE & 0xFF) }` -/
def CPU.E (c : CPU) : Nat := (c.DE &&& 0xFF) % 256
/-- Getter `func (c *CPU) H() byte { return byte(c.HL >> 8) }` -/
def CPU.H (c : CPU) : Nat := (c.HL >>> 8) % 256
/-- Getter `func (c *CPU) L() byte { return byte(c.HL & 0xFF) }` -/
def CPU.L (c : CPU) : Nat := (c.HL &&& 0xFF) % 256

/-- Setter body `c.AF = (uint16(value) << 8) | (c.AF & 0x00FF)` -/
def CPU.SetA (c : CPU) (value : Nat) : CPU :=
  { c with AF := ((value <<< 8) % 65536) ||| (c.AF &&& 0x00FF) }
/-- Setter body `c.AF = (c.AF & 0xFF00) | uint16(value)` -/
def CPU.SetF (c : CPU) (value : Nat) : CPU :=
  { c with AF := (c.AF &&& 0xFF00) ||| value }
/-- Setter body `c.BC = (uint16(value) << 8) | (c.BC & 0x00FF)` -/
def CPU.SetB (c : CPU) (value : Nat) : CPU :=
  { c with BC := ((value <<< 8) % 65536) ||| (c.BC &&& 0x00FF) }
/-- Setter body `c.BC = (c.BC & 0xFF00) | uint16(value)` -/
def CPU.SetC (c : CPU) (value : Nat) : CPU :=
  { c with BC := (c.BC &&& 0xFF00) ||| value }
/-- Setter body `c.DE = (uint16(value) << 8) | (c.DE & 0x00FF)` -/
def CPU.SetD (c : CPU) (value : Nat) : CPU :=
  { c with DE := ((value <<< 8) % 65536) ||| (c.DE &&& 0x00FF) }
/-- Setter body `c.DE = (c.DE & 0xFF00) | uint16(value)` -/
def CPU.SetE (c : CPU) (value : Nat) : CPU :=
  { c with DE := (c.DE &&& 0xFF00) ||| value }
/-- Setter body `c.HL = (uint16(value) << 8) | (c.HL & 0x00FF)` -/
def CPU.SetH (c : CPU) (value : Nat) : CPU :=
  { c with HL := ((value <<< 8) % 65536) ||| (c.HL &&& 0x00FF) }
/-- Setter body `c.HL = (c.HL & 0xFF00) | uint16(value)` -/
def CPU.SetL (c : CPU) (value : Nat) : CPU :=
  { c with HL := (c.HL &&& 0xFF00) ||| value }

/-! ## Flag synchronisation -/

/-- The byte `f` that `updateFlags` builds from the four booleans
(`if c.Flags.Z { f |= 0x80 }` and so on, starting from `var f byte`). -/
def FlagBits.pack (fl : FlagBits) : Nat :=
  let f := 0
  let f := if fl.Z then f ||| 0x80 else f
  let f := if fl.N then f ||| 0x40 else f
  let f := if fl.H then f ||| 0x20 else f
  let f := if fl.C then f ||| 0x10 else f
  f

/-- Method `func (c *CPU) updateFlags()`: packs the booleans and stores
`(c.AF & 0xFF00) | uint16(f)`. -/
def CPU.updateFlags (c : CPU) : CPU :=
  { c with AF := (c.AF &&& 0xFF00) ||| c.Flags.pack }

/-- Method `func (c *CPU) readFlags()`: `f := byte(c.AF & 0xFF)`, then each boolean
is `(f & mask) != 0`. -/
def CPU.readFlags (c : CPU) : CPU :=
  let f := (c.AF &&& 0xFF) % 256
  { c with Flags :=
      { Z := decide ((f &&& 0x80) ≠ 0)
        N := decide ((f &&& 0x40) ≠ 0)
        H := decide ((f &&& 0x20) ≠ 0)
        C := decide ((f &&& 0x10) ≠ 0) } }

/-- Method `func (c *CPU) SetFlagsADD(result uint16, operand byte)`: assigns `Z`, `H`
and `C`; there is no assignment to `N`. -/
def CPU.SetFlagsADD (c : CPU) (result operand : Nat) : CPU :=
  let c := { c with Flags := { c.Flags with Z := decide ((result &&& 0xFF) = 0) } }
  let c := { c with Flags :=
    { c.Flags with H := decide (((c.A &&& 0x0F) + (operand &&& 0x0F)) % 256 > 0x0F) } }
  { c with Flags := { c.Flags with C := decide (result > 0xFF) } }

/-! ## Fetch, decode, execute -/

/-- Method `func (c *CPU) Step()`.  The fetch reads `c.Memory.Read(c.PC)`
(a panic of the read leaves the state as it was) and then performs `c.PC++`.
Opcode `0x00` does nothing more.  Opcode `0x80` adds `B` to `A`: the sum is
taken in `uint16`; in `a&0x0F + b&0x0F` the operator `&` binds tighter than
`+`, and the sum of the two nibbles is a `byte`.  Every other opcode performs
`c.PC += 1` and panics with a message formatted from `opcode` and `c.PC-1`
(a `uint16` subtraction, written here as adding `65535` modulo `65536`). -/
def CPU.Step (c : CPU) : Except (Panic × CPU) CPU :=
  match c.Memory.Read c.PC with
  | .error p => .error (p, c)
  | .ok opcode =>
    let c := { c with PC := (c.PC + 1) % 65536 }
    if opcode = 0x00 then
      .ok c
    else if opcode = 0x80 then
      let a := c.A
      let b := c.B
      let result := (a + b) % 65536
      let c := { c with Flags := { c.Flags with Z := decide ((result &&& 0xFF) = 0) } }
      let c := { c with Flags := { c.Flags with N := false } }
      let c := { c with Flags :=
        { c.Flags with H := decide (((a &&& 0x0F) + (b &&& 0x0F)) % 256 > 0x0F) } }
      let c := { c with Flags := { c.Flags with C := decide (result > 0xFF) } }
      let c := c.SetA ((result &&& 0xFF) % 256)
      .ok c.updateFlags
    else
      let c := { c with PC := (c.PC + 1) % 65536 }
      .error (.unimplementedOpcode opcode ((c.PC + 65535) % 65536), c)

/-! ## The program of `main` -/

/-- The memory `main` builds: `make([]byte, 0xFFFF)` with
`mem.RAM[0x0000] = 0x80`. -/
def mainMemory : Memory :=
  { RAM := (List.replicate 0xFFFF 0).set 0x0000 0x80 }

/-- The value `CPU{Memory: mem}`: every other field is zero. -/
def newCPU (mem : Memory) : CPU :=
  { AF := 0, BC := 0, DE := 0, HL := 0, PC := 0, SP := 0
    Flags := { Z := false, N := false, H := false, C := false }
    Memory := mem }

/-- The CPU of `main` before its call of `Step`: `cpu.SetA(0x10)` and
`cpu.SetB(0x20)` on `CPU{Memory: mem}`. -/
def mainCPU : CPU := ((newCPU mainMemory).SetA 0x10).SetB 0x20

/-- A small CPU for concrete runs: registers and flags as given, memory the
listed bytes. -/
def mkCPU (af bc pc : Nat) (fl : FlagBits) (ram : List Nat) : CPU :=
  { AF := af, BC := bc, DE := 0, HL := 0, PC := pc, SP := 0
    Flags := fl, Memory := { RAM := ram } }

/-- A CPU at address 0 of a one-byte memory holding the opcode `0xFF`, with
every register zero and no flag set. -/
def badOpcodeCPU : CPU := mkCPU 0 0 0 { Z := false, N := false, H := false, C := false } [0xFF]

/-- A CPU at the last address `0xFFFF` of a 65536-byte memory whose last byte
is the opcode `0x80`. -/
def wrapCPU : CPU :=
  { AF := 0x1200, BC := 0x3400, DE := 0, HL := 0, PC := 0xFFFF, SP := 0
    Flags := { Z := false, N := false, H := false, C := false }
    Memory := { RAM := List.replicate 0xFFFF 0 ++ [0x80] } }

/-- The CPU after `SetF(0x80)` on `CPU{Memory: mem}` with `mem` the one-byte
memory holding the opcode `0x00`: the flags byte has bit 7 set while the
boolean `Z` is false. -/
def staleFlagsCPU : CPU := (newCPU { RAM := [0x00] }).SetF 0x80

/-- The state `main` reaches after its call of `Step`: `A = 0x30`, `B = 0x20`,
`PC = 1`, no flag set. -/
def mainResult : CPU :=
  { AF := 0x3000, BC := 0x2000, DE := 0, HL := 0, PC := 1, SP := 0
    Flags := { Z := false, N := false, H := false, C := false }
    Memory := mainMemory }

/-- A CPU with four distinct register pairs, for concrete runs of the
accessors. -/
def pairsCPU : CPU :=
  { AF := 0x1234, BC := 0x5678, DE := 0x9ABC, HL := 0xDEF0, PC := 0, SP := 0xFFFE
    Flags := { Z := false, N := false, H := true, C := true }
    Memory := { RAM := [0x00, 0x80, 0xFF] } }

/-- A CPU with `A = 0xFF`, `B = 0x01`, a flags byte `0x4F` (bit 6 and the low
nibble set), the boolean `N` set, and the opcode `0x80` at address 0. -/
def carryCPU : CPU :=
  mkCPU 0xFF4F 0x0100 0 { Z := false, N := true, H := false, C := false } [0x80]

/-- A CPU with `A = 0x10` whose boolean `N` is set, as a subtraction would
leave it. -/
def afterSubCPU : CPU :=
  mkCPU 0x1040 0x2000 0 { Z := false, N := true, H := false, C := false } [0x80]

/-- The state `pairsCPU` with its program counter at address 2, where the
memory holds `0xFF`. -/
def pairsAtBadOpcode : CPU := { pairsCPU with PC := 2 }

/-- The state `pairsCPU` with its program counter at address 1, where the
memory holds `0x80`. -/
def pairsAtAdd : CPU := { pairsCPU with PC := 1 }

/-! ## Bit arithmetic of the register pairs -/

theorem and_ff (x : Nat) : x &&& 0xFF = x % 256 :=
  Nat.and_pow_two_sub_one_eq_mod x 8

theorem shl8 (x : Nat) : x <<< 8 = x * 256 := Nat.shiftLeft_eq x 8

theorem shr8 (x : Nat) : x >>> 8 = x / 256 := Nat.shiftRight_eq_div_pow x 8

theorem and_ff00 (x : Nat) : x &&& 0xFF00 = 256 * (x / 256 % 256) := by
  apply Nat.eq_of_testBit_eq
  intro i
  have h : (0xFF00 : Nat) = 2 ^ 8 * (2 ^ 8 - 1) := by decide
  have h2 : (256 : Nat) = 2 ^ 8 := by decide
  rw [h, h2, Nat.testBit_and, Nat.testBit_mul_pow_two, Nat.testBit_mul_pow_two,
    Nat.testBit_two_pow_sub_one, Nat.testBit_mod_two_pow, ← Nat.shiftRight_eq_div_pow,
    Nat.testBit_shiftRight]
  by_cases h8 : i ≥ 8
  · have : 8 + (i - 8) = i := by omega
    simp [h8, this, Bool.and_comm]
  · simp [h8]

theorem or_hi_lo (h l : Nat) (hl : l < 256) : 256 * h ||| l = 256 * h + l :=
  (Nat.mul_add_lt_is_or (i := 8) hl h).symm

/-- The word a high-half setter stores, in arithmetic form. -/
theorem setHi_eq (x v : Nat) :
    ((v <<< 8) % 65536) ||| (x &&& 0x00FF) = 256 * (v % 256) + x % 256 := by
  have h : v * 256 % 65536 = 256 * (v % 256) := by omega
  rw [shl8, and_ff, h, or_hi_lo _ _ (Nat.mod_lt _ (by decide))]

/-- The word a low-half setter stores, in arithmetic form. -/
theorem setLo_eq (x v : Nat) (hv : v < 256) :
    (x &&& 0xFF00) ||| v = 256 * (x / 256 % 256) + v := by
  rw [and_ff00, or_hi_lo _ _ hv]

theorem hi_of_setHi (x v : Nat) (hv : v < 256) :
    ((((v <<< 8) % 65536) ||| (x &&& 0x00FF)) >>> 8) % 256 = v := by
  rw [setHi_eq, shr8]; omega

theorem lo_of_setHi (x v : Nat) :
    ((((v <<< 8) % 65536) ||| (x &&& 0x00FF)) &&& 0xFF) % 256 = (x &&& 0xFF) % 256 := by
  rw [setHi_eq, and_ff, and_ff]; omega

theorem lo_of_setLo (x v : Nat) (hv : v < 256) :
    (((x &&& 0xFF00) ||| v) &&& 0xFF) % 256 = v := by
  rw [setLo_eq _ _ hv, and_ff]; omega

theorem hi_of_setLo (x v : Nat) (hv : v < 256) :
    (((x &&& 0xFF00) ||| v) >>> 8) % 256 = (x >>> 8) % 256 := by
  rw [setLo_eq _ _ hv, shr8, shr8]; omega

theorem pack_eq (fl : FlagBits) :
    fl.pack = 128 * fl.Z.toNat + 64 * fl.N.toNat + 32 * fl.H.toNat + 16 * fl.C.toNat := by
  rcases fl with ⟨z, n, h, c⟩
  cases z <;> cases n <;> cases h <;> cases c <;> rfl

theorem pack_lt (fl : FlagBits) : fl.pack < 256 := by
  rcases fl with ⟨z, n, h, c⟩
  cases z <;> cases n <;> cases h <;> cases c <;> decide

theorem Step_of_nop (c : CPU) (h : c.Memory.Read c.PC = .ok 0x00) :
    c.Step = .ok { c with PC := (c.PC + 1) % 65536 } := by
  simp [CPU.Step, h]

theorem Step_of_add (c : CPU) (h : c.Memory.Read c.PC = .ok 0x80) :
    c.Step = .ok
      (CPU.updateFlags
        (CPU.SetA
          { c with
            PC := (c.PC + 1) % 65536
            Flags :=
              { Z := decide ((((c.A + c.B) % 65536) &&& 0xFF) = 0)
                N := false
                H := decide (((c.A &&& 0x0F) + (c.B &&& 0x0F)) % 256 > 0x0F)
                C := decide ((c.A + c.B) % 65536 > 0xFF) } }
          ((((c.A + c.B) % 65536) &&& 0xFF) % 256))) := by
  simp [CPU.Step, h, CPU.A, CPU.B]

theorem Step_of_other (c : CPU) (op : Nat) (h : c.Memory.Read c.PC = .ok op)
    (h0 : op ≠ 0x00) (h80 : op ≠ 0x80) :
    c.Step = .error (.unimplementedOpcode op ((((c.PC + 1) % 65536 + 1) % 65536 + 65535) % 65536),
      { c with PC := ((c.PC + 1) % 65536 + 1) % 65536 }) := by
  simp [CPU.Step, h, h0, h80]

theorem Step_of_fault (c : CPU) (p : Panic) (h : c.Memory.Read c.PC = .error p) :
    c.Step = .error (p, c) := by
  simp [CPU.Step, h]


/-! ## Memory and dispatch lemmas -/

theorem Read_of_lt (m : Memory) (addr : Nat) (h : addr < m.RAM.length) :
    m.Read addr = .ok m.RAM[addr] := by
  simp [Memory.Read, List.getElem?_eq_getElem h]

theorem Read_of_le (m : Memory) (addr : Nat) (h : m.RAM.length ≤ addr) :
    m.Read addr = .error (.indexOutOfRange addr m.RAM.length) := by
  simp [Memory.Read, List.getElem?_eq_none h]

theorem Read_fresh_zero (n v : Nat) (hn : 0 < n) :
    Memory.Read { RAM := (List.replicate n 0).set 0 v } 0 = .ok v := by
  cases n with
  | zero => omega
  | succ k => simp [Memory.Read, List.replicate_succ]

theorem Read_fresh_top (n v : Nat) :
    Memory.Read { RAM := (List.replicate n 0).set 0 v } n = .error (.indexOutOfRange n n) := by
  have h := Read_of_le { RAM := (List.replicate n 0).set 0 v } n (by simp)
  simpa using h

theorem mainMemory_length : mainMemory.RAM.length = 0xFFFF := by
  unfold mainMemory
  rw [List.length_set, List.length_replicate]
theorem mainMemory_Read_zero : mainMemory.Read 0 = .ok 0x80 :=
  Read_fresh_zero 0xFFFF 0x80 (by decide)
theorem mainCPU_fetch : mainCPU.Memory.Read mainCPU.PC = .ok 0x80 := mainMemory_Read_zero
theorem mainMemory_Read_top : mainMemory.Read 0xFFFF = .error (.indexOutOfRange 0xFFFF 0xFFFF) :=
  Read_fresh_top 0xFFFF 0x80

theorem Read_append_last (n v : Nat) :
    Memory.Read { RAM := List.replicate n 0 ++ [v] } n = .ok v := by
  simp [Memory.Read, List.getElem?_append_right]

theorem wrapCPU_fetch : wrapCPU.Memory.Read wrapCPU.PC = .ok 0x80 :=
  Read_append_last 0xFFFF 0x80

theorem mainCPU_Step : mainCPU.Step = .ok mainResult := by
  rw [Step_of_add mainCPU mainCPU_fetch]
  rfl

theorem A_updateFlags (c : CPU) : c.updateFlags.A = c.A := by
  simp only [CPU.updateFlags, CPU.A]
  exact hi_of_setLo c.AF c.Flags.pack (pack_lt c.Flags)

theorem F_updateFlags (c : CPU) : c.updateFlags.F = c.Flags.pack := by
  simp only [CPU.updateFlags, CPU.F]
  exact lo_of_setLo c.AF c.Flags.pack (pack_lt c.Flags)

theorem A_SetA (c : CPU) (v : Nat) (hv : v < 256) : (c.SetA v).A = v := by
  simp only [CPU.SetA, CPU.A]
  exact hi_of_setHi c.AF v hv

theorem A_lt (c : CPU) : c.A < 256 := Nat.mod_lt _ (by decide)

theorem B_lt (c : CPU) : c.B < 256 := Nat.mod_lt _ (by decide)

theorem and_0f (x : Nat) : x &&& 0x0F = x % 16 :=
  Nat.and_pow_two_sub_one_eq_mod x 4

/-! ## The add opcode -/

/-- C1: for every state with `A = a`, `B = b` whose memory holds `0x80` at the
program counter, `Step` completes, the new accumulator is `(a + b) & 0xFF`, and
the new flags are `Z = (A' == 0)`, `N = false`,
`H = ((a & 0xF) + (b & 0xF) > 0xF)` and `C = (a + b > 0xFF)`, whatever the flags
were before. -/
theorem Step_add_accumulator_and_flags (c : CPU) (a b : Nat)
    (ha : c.A = a) (hb : c.B = b) (hop : c.Memory.Read c.PC = .ok 0x80) :
    ∃ c', c.Step = .ok c' ∧
      c'.A = (a + b) &&& 0xFF ∧
      c'.Flags.Z = decide (c'.A = 0) ∧
      c'.Flags.N = false ∧
      c'.Flags.H = decide ((a &&& 0xF) + (b &&& 0xF) > 0xF) ∧
      c'.Flags.C = decide (a + b > 0xFF) := by
  have hA := A_lt c
  have hB := B_lt c
  subst ha hb
  have hacc : ((c.A + c.B) % 65536 &&& 0xFF) % 256 = (c.A + c.B) &&& 0xFF := by
    rw [and_ff, and_ff]; omega
  have hA' : ∀ d : CPU, (CPU.updateFlags
      (CPU.SetA d (((c.A + c.B) % 65536 &&& 0xFF) % 256))).A = (c.A + c.B) &&& 0xFF := by
    intro d
    rw [A_updateFlags, A_SetA _ _ (Nat.mod_lt _ (by decide)), hacc]
  refine ⟨_, Step_of_add c hop, hA' _, ?_, rfl, ?_, ?_⟩
  · rw [hA']
    show decide (((c.A + c.B) % 65536 &&& 0xFF) = 0) = decide ((c.A + c.B) &&& 0xFF = 0)
    rw [and_ff, and_ff]
    congr 1
    apply propext
    constructor <;> intro h <;> omega
  · show decide (((c.A &&& 0x0F) + (c.B &&& 0x0F)) % 256 > 0x0F)
      = decide ((c.A &&& 0xF) + (c.B &&& 0xF) > 0xF)
    rw [and_0f, and_0f]
    congr 1
    apply propext
    constructor <;> intro h <;> omega
  · show decide ((c.A + c.B) % 65536 > 0xFF) = decide (c.A + c.B > 0xFF)
    congr 1
    apply propext
    constructor <;> intro h <;> omega

/-- C1 at the state of `main` (`A = 0x10`, `B = 0x20`, opcode `0x80` at
address 0): the step completes with `A = 0x30` and no flag set. -/
theorem Step_add_accumulator_and_flags_witness :
    mainCPU.A = 0x10 ∧ mainCPU.B = 0x20 ∧ mainCPU.Memory.Read mainCPU.PC = .ok 0x80 ∧
    ∃ c', mainCPU.Step = .ok c' ∧
      c'.A = (0x10 + 0x20) &&& 0xFF ∧
      c'.Flags.Z = decide (c'.A = 0) ∧
      c'.Flags.N = false ∧
      c'.Flags.H = decide ((0x10 &&& 0xF) + (0x20 &&& 0xF) > 0xF) ∧
      c'.Flags.C = decide (0x10 + 0x20 > 0xFF) :=
  ⟨rfl, rfl, mainCPU_fetch,
    Step_add_accumulator_and_flags mainCPU 0x10 0x20 rfl rfl mainCPU_fetch⟩

/-! ## Register halves -/

/-- C2: for every state and every 8-bit value `v`, each 8-bit setter followed
by its getter returns `v`, and the other half of the same pair reads as
before: `SetA`/`SetF` on `AF`, `SetB`/`SetC` on `BC`, `SetD`/`SetE` on `DE`,
`SetH`/`SetL` on `HL`. -/
theorem setter_then_getter (c : CPU) (v : Nat) (hv : v < 256) :
    ((c.SetA v).A = v ∧ (c.SetA v).F = c.F) ∧
    ((c.SetF v).F = v ∧ (c.SetF v).A = c.A) ∧
    ((c.SetB v).B = v ∧ (c.SetB v).C = c.C) ∧
    ((c.SetC v).C = v ∧ (c.SetC v).B = c.B) ∧
    ((c.SetD v).D = v ∧ (c.SetD v).E = c.E) ∧
    ((c.SetE v).E = v ∧ (c.SetE v).D = c.D) ∧
    ((c.SetH v).H = v ∧ (c.SetH v).L = c.L) ∧
    ((c.SetL v).L = v ∧ (c.SetL v).H = c.H) :=
  ⟨⟨hi_of_setHi c.AF v hv, lo_of_setHi c.AF v⟩,
   ⟨lo_of_setLo c.AF v hv, hi_of_setLo c.AF v hv⟩,
   ⟨hi_of_setHi c.BC v hv, lo_of_setHi c.BC v⟩,
   ⟨lo_of_setLo c.BC v hv, hi_of_setLo c.BC v hv⟩,
   ⟨hi_of_setHi c.DE v hv, lo_of_setHi c.DE v⟩,
   ⟨lo_of_setLo c.DE v hv, hi_of_setLo c.DE v hv⟩,
   ⟨hi_of_setHi c.HL v hv, lo_of_setHi c.HL v⟩,
   ⟨lo_of_setLo c.HL v hv, hi_of_setLo c.HL v hv⟩⟩

/-- C2 at `v = 0xAB` on a state whose pairs are `0x1234`, `0x5678`, `0x9ABC`
and `0xDEF0`. -/
theorem setter_then_getter_witness :
    (0xAB : Nat) < 256 ∧
    (((pairsCPU.SetA 0xAB).A = 0xAB ∧ (pairsCPU.SetA 0xAB).F = pairsCPU.F) ∧
    ((pairsCPU.SetF 0xAB).F = 0xAB ∧ (pairsCPU.SetF 0xAB).A = pairsCPU.A) ∧
    ((pairsCPU.SetB 0xAB).B = 0xAB ∧ (pairsCPU.SetB 0xAB).C = pairsCPU.C) ∧
    ((pairsCPU.SetC 0xAB).C = 0xAB ∧ (pairsCPU.SetC 0xAB).B = pairsCPU.B) ∧
    ((pairsCPU.SetD 0xAB).D = 0xAB ∧ (pairsCPU.SetD 0xAB).E = pairsCPU.E) ∧
    ((pairsCPU.SetE 0xAB).E = 0xAB ∧ (pairsCPU.SetE 0xAB).D = pairsCPU.D) ∧
    ((pairsCPU.SetH 0xAB).H = 0xAB ∧ (pairsCPU.SetH 0xAB).L = pairsCPU.L) ∧
    ((pairsCPU.SetL 0xAB).L = 0xAB ∧ (pairsCPU.SetL 0xAB).H = pairsCPU.H)) :=
  ⟨by decide, setter_then_getter pairsCPU 0xAB (by decide)⟩

/-! ## Unimplemented opcodes -/

/-- C3, as stated, fails: it is not the case that every state with an opcode
other than `0x00` and `0x80` at its program counter fails with all of `AF`,
`BC`, `DE`, `HL`, `PC`, `SP` and the flags as before the step.  At opcode
`0xFF`, `PC = 0`, the program counter at the moment of failure is 2. -/
theorem Step_unimplemented_not_atomic :
    ¬ ∀ (c : CPU) (op : Nat), c.Memory.Read c.PC = .ok op → op ≠ 0x00 → op ≠ 0x80 →
      ∃ p c', c.Step = .error (p, c') ∧
        c'.AF = c.AF ∧ c'.BC = c.BC ∧ c'.DE = c.DE ∧ c'.HL = c.HL ∧
        c'.PC = c.PC ∧ c'.SP = c.SP ∧ c'.Flags = c.Flags := by
  intro h
  obtain ⟨p, c', hstep, -, -, -, -, hpc, -⟩ :=
    h badOpcodeCPU 0xFF rfl (by decide) (by decide)
  have hrun : badOpcodeCPU.Step
      = .error (.unimplementedOpcode 0xFF 1, { badOpcodeCPU with PC := 2 }) := rfl
  rw [hrun] at hstep
  injection hstep with hpair
  injection hpair with _ hc
  subst hc
  exact absurd hpc (by decide)

/-- C3, amended: for every state whose memory holds an opcode other than
`0x00` and `0x80` at its program counter, `Step` fails with the
unimplemented-opcode panic, and at the moment of failure `AF`, `BC`, `DE`,
`HL`, `SP`, the four flag booleans and the memory are as before the step. -/
theorem Step_unimplemented_frame (c : CPU) (op : Nat)
    (hop : c.Memory.Read c.PC = .ok op) (h0 : op ≠ 0x00) (h80 : op ≠ 0x80) :
    ∃ x addr c', c.Step = .error (.unimplementedOpcode x addr, c') ∧
      c'.AF = c.AF ∧ c'.BC = c.BC ∧ c'.DE = c.DE ∧ c'.HL = c.HL ∧
      c'.SP = c.SP ∧ c'.Flags = c.Flags ∧ c'.Memory = c.Memory :=
  ⟨_, _, _, Step_of_other c op hop h0 h80, rfl, rfl, rfl, rfl, rfl, rfl, rfl⟩

/-- C3, amended, at opcode `0xFF`, `PC = 0`. -/
theorem Step_unimplemented_frame_witness :
    badOpcodeCPU.Memory.Read badOpcodeCPU.PC = .ok 0xFF ∧ (0xFF : Nat) ≠ 0x00 ∧
    (0xFF : Nat) ≠ 0x80 ∧
    ∃ x addr c', badOpcodeCPU.Step = .error (.unimplementedOpcode x addr, c') ∧
      c'.AF = badOpcodeCPU.AF ∧ c'.BC = badOpcodeCPU.BC ∧ c'.DE = badOpcodeCPU.DE ∧
      c'.HL = badOpcodeCPU.HL ∧ c'.SP = badOpcodeCPU.SP ∧
      c'.Flags = badOpcodeCPU.Flags ∧ c'.Memory = badOpcodeCPU.Memory :=
  ⟨rfl, by decide, by decide,
    Step_unimplemented_frame badOpcodeCPU 0xFF rfl (by decide) (by decide)⟩

/-- C4: the run at opcode `0xFF`, `PC = 0x0000`.  The panic of `Step` carries
the opcode `0xFF` and the address `0x0001`, which is not the address `0x0000`
the opcode was fetched from. -/
theorem Step_unimplemented_reports_next_address :
    (∃ c', badOpcodeCPU.Step = .error (.unimplementedOpcode 0xFF 0x0001, c')) ∧
    badOpcodeCPU.PC = 0x0000 ∧
    ¬ ∃ c', badOpcodeCPU.Step = .error (.unimplementedOpcode 0xFF 0x0000, c') := by
  have hrun : badOpcodeCPU.Step
      = .error (.unimplementedOpcode 0xFF 1, { badOpcodeCPU with PC := 2 }) := rfl
  refine ⟨⟨_, hrun⟩, rfl, ?_⟩
  rintro ⟨c', hc⟩
  rw [hrun] at hc
  injection hc with hpair
  injection hpair with hp _
  exact absurd hp (by decide)

/-! ## The no-op opcode and the program counter -/

/-- C5: for every state whose memory holds `0x00` at its program counter,
`Step` completes; `AF`, `BC`, `DE`, `HL`, `SP`, the four flag booleans and the
memory are unchanged and the new `PC` is `PC + 1` modulo `2^16`. -/
theorem Step_nop_frame (c : CPU) (hop : c.Memory.Read c.PC = .ok 0x00) :
    ∃ c', c.Step = .ok c' ∧
      c'.AF = c.AF ∧ c'.BC = c.BC ∧ c'.DE = c.DE ∧ c'.HL = c.HL ∧ c'.SP = c.SP ∧
      c'.Flags = c.Flags ∧ c'.Memory = c.Memory ∧ c'.PC = (c.PC + 1) % 65536 :=
  ⟨_, Step_of_nop c hop, rfl, rfl, rfl, rfl, rfl, rfl, rfl, rfl⟩

/-- C5 at a state with four distinct pairs and `0x00` at address 0. -/
theorem Step_nop_frame_witness :
    pairsCPU.Memory.Read pairsCPU.PC = .ok 0x00 ∧
    ∃ c', pairsCPU.Step = .ok c' ∧
      c'.AF = pairsCPU.AF ∧ c'.BC = pairsCPU.BC ∧ c'.DE = pairsCPU.DE ∧
      c'.HL = pairsCPU.HL ∧ c'.SP = pairsCPU.SP ∧
      c'.Flags = pairsCPU.Flags ∧ c'.Memory = pairsCPU.Memory ∧
      c'.PC = (pairsCPU.PC + 1) % 65536 :=
  ⟨rfl, Step_nop_frame pairsCPU rfl⟩

/-- C6: for every state whose memory holds `0x80` at its program counter,
`Step` completes and the new `PC` is `PC + 1` modulo `2^16`. -/
theorem Step_add_advances_PC (c : CPU) (hop : c.Memory.Read c.PC = .ok 0x80) :
    ∃ c', c.Step = .ok c' ∧ c'.PC = (c.PC + 1) % 65536 :=
  ⟨_, Step_of_add c hop, rfl⟩

/-- C6 at a state with `0x80` at address `0xFFFF` of a full 64 KiB memory:
the program counter wraps to 0. -/
theorem Step_add_advances_PC_witness :
    wrapCPU.Memory.Read wrapCPU.PC = .ok 0x80 ∧
    ∃ c', wrapCPU.Step = .ok c' ∧ c'.PC = (0xFFFF + 1) % 65536 :=
  ⟨wrapCPU_fetch, Step_add_advances_PC wrapCPU wrapCPU_fetch⟩

/-! ## Flags byte and flag booleans -/

/-- C7: for every state (every choice of the four booleans and every prior
`AF`), `updateFlags` followed by `readFlags` gives back the four booleans, and
after `updateFlags` bits 3..0 of `F()` are zero. -/
theorem updateFlags_readFlags_roundtrip (c : CPU) :
    c.updateFlags.readFlags.Flags = c.Flags ∧ c.updateFlags.F &&& 0x0F = 0 := by
  have hF := F_updateFlags c
  constructor
  · have hF' : (c.updateFlags.AF &&& 0xFF) % 256 = c.Flags.pack := hF
    simp only [CPU.readFlags, hF']
    rcases c.Flags with ⟨z, n, h, k⟩
    cases z <;> cases n <;> cases h <;> cases k <;> rfl
  · rw [hF]
    rcases c.Flags with ⟨z, n, h, k⟩
    cases z <;> cases n <;> cases h <;> cases k <;> rfl

/-- C8, as stated, fails: it is not the case that after every completed
`Step` the flags byte reflects the four booleans.  After `SetF(0x80)` and a
no-op step, `F()` is `0x80` while `Z` is false. -/
theorem Step_flags_sync_fails_on_nop :
    ¬ ∀ (c c' : CPU), c.Step = .ok c' →
      c'.F = 0x80 * c'.Flags.Z.toNat + 0x40 * c'.Flags.N.toNat
        + 0x20 * c'.Flags.H.toNat + 0x10 * c'.Flags.C.toNat ∧
      c'.F &&& 0x0F = 0 := by
  intro h
  have hrun : staleFlagsCPU.Step = .ok { staleFlagsCPU with PC := 1 } := rfl
  exact absurd (h staleFlagsCPU _ hrun).1 (by decide)

/-- C8, amended: for every state on which `Step` completes, if the opcode is
`0x80`, or if the flags byte reflected the four booleans before the step, then
after the step `F()` is `0x80*[Z] + 0x40*[N] + 0x20*[H] + 0x10*[C]` and its
bits 3..0 are zero. -/
theorem Step_flags_sync (c c' : CPU) (hstep : c.Step = .ok c')
    (hpre : c.Memory.Read c.PC = .ok 0x80 ∨
      c.F = 0x80 * c.Flags.Z.toNat + 0x40 * c.Flags.N.toNat
        + 0x20 * c.Flags.H.toNat + 0x10 * c.Flags.C.toNat) :
    c'.F = 0x80 * c'.Flags.Z.toNat + 0x40 * c'.Flags.N.toNat
        + 0x20 * c'.Flags.H.toNat + 0x10 * c'.Flags.C.toNat ∧
      c'.F &&& 0x0F = 0 := by
  have key : c'.F = 0x80 * c'.Flags.Z.toNat + 0x40 * c'.Flags.N.toNat
        + 0x20 * c'.Flags.H.toNat + 0x10 * c'.Flags.C.toNat := by
    have hadd : c.Memory.Read c.PC = .ok 0x80 → c'.F = c'.Flags.pack := by
      intro hop
      rw [Step_of_add c hop] at hstep
      injection hstep with hc
      subst hc
      exact F_updateFlags _
    cases hread : c.Memory.Read c.PC with
    | error p =>
      rw [Step_of_fault c p hread] at hstep
      cases hstep
    | ok op =>
      by_cases h80 : op = 0x80
      · subst h80
        rw [hadd hread, pack_eq]
      · by_cases h0 : op = 0x00
        · subst h0
          rcases hpre with hop | hsync
          · rw [hread] at hop
            cases hop
          · rw [Step_of_nop c hread] at hstep
            injection hstep with hc
            subst hc
            exact hsync
        · rw [Step_of_other c op hread h0 h80] at hstep
          cases hstep
  refine ⟨key, ?_⟩
  rw [key, and_0f]
  rcases c'.Flags with ⟨z, n, h, k⟩
  cases z <;> cases n <;> cases h <;> cases k <;> rfl

/-- C8, amended, at the run of `main`: the step completes on opcode `0x80`
and leaves `AF = 0x3000` with no flag set. -/
theorem Step_flags_sync_witness :
    mainCPU.Step = .ok mainResult ∧
    (mainCPU.Memory.Read mainCPU.PC = .ok 0x80 ∨
      mainCPU.F = 0x80 * mainCPU.Flags.Z.toNat + 0x40 * mainCPU.Flags.N.toNat
        + 0x20 * mainCPU.Flags.H.toNat + 0x10 * mainCPU.Flags.C.toNat) ∧
    (mainResult.F = 0x80 * mainResult.Flags.Z.toNat + 0x40 * mainResult.Flags.N.toNat
        + 0x20 * mainResult.Flags.H.toNat + 0x10 * mainResult.Flags.C.toNat ∧
      mainResult.F &&& 0x0F = 0) :=
  ⟨mainCPU_Step, Or.inl mainCPU_fetch,
    Step_flags_sync mainCPU mainResult mainCPU_Step (Or.inl mainCPU_fetch)⟩

/-! ## Memory bounds -/

/-- C9: for every memory, address and value, `Read` and `Write` panic exactly
when the address is at or beyond the length of `RAM`; an address inside `RAM`
reads the byte stored at that very index. -/
theorem Read_Write_panic_iff (m : Memory) (addr v : Nat) :
    ((∃ p, m.Read addr = .error p) ↔ m.RAM.length ≤ addr) ∧
    ((∃ p, m.Write addr v = .error p) ↔ m.RAM.length ≤ addr) ∧
    (∀ h : addr < m.RAM.length, m.Read addr = .ok (m.RAM.get ⟨addr, h⟩)) := by
  refine ⟨⟨?_, ?_⟩, ⟨?_, ?_⟩, ?_⟩
  · rintro ⟨p, hp⟩
    by_contra hlt
    rw [Read_of_lt m addr (by omega)] at hp
    cases hp
  · intro hle
    exact ⟨_, Read_of_le m addr hle⟩
  · rintro ⟨p, hp⟩
    by_contra hlt
    have hlt' : addr < m.RAM.length := by omega
    simp [Memory.Write, hlt'] at hp
  · intro hle
    have hnlt : ¬ addr < m.RAM.length := by omega
    exact ⟨.indexOutOfRange addr m.RAM.length, by simp [Memory.Write, hnlt]⟩
  · intro h
    exact Read_of_lt m addr h

/-- C9 on the three-byte memory `[0x00, 0x80, 0xFF]`: address 2 reads `0xFF`,
and address 3 panics on both `Read` and `Write`. -/
theorem Read_Write_panic_iff_witness :
    (2 : Nat) < pairsCPU.Memory.RAM.length ∧
    pairsCPU.Memory.Read 2 = .ok 0xFF ∧
    (∃ p, pairsCPU.Memory.Read 3 = .error p) ∧
    (∃ p, pairsCPU.Memory.Write 3 0x12 = .error p) :=
  ⟨by decide,
    (Read_Write_panic_iff pairsCPU.Memory 2 0).2.2 (by decide),
    (Read_Write_panic_iff pairsCPU.Memory 3 0).1.2 (by decide),
    (Read_Write_panic_iff pairsCPU.Memory 3 0x12).2.1.2 (by decide)⟩

/-- C10: the memory of `main` has `0xFFFF` bytes, so its last valid address
is `0xFFFE`: `Read(0xFFFF)` and `Write(0xFFFF, v)` panic with an out-of-range
index, and so does the fetch of `Step` at `PC = 0xFFFF`. -/
theorem mainMemory_top_address_out_of_range :
    mainMemory.RAM.length = 0xFFFF ∧
    mainMemory.Read 0xFFFF = .error (.indexOutOfRange 0xFFFF 0xFFFF) ∧
    (∀ v, mainMemory.Write 0xFFFF v = .error (.indexOutOfRange 0xFFFF 0xFFFF)) ∧
    CPU.Step { mainCPU with PC := 0xFFFF }
      = .error (.indexOutOfRange 0xFFFF 0xFFFF, { mainCPU with PC := 0xFFFF }) := by
  refine ⟨mainMemory_length, mainMemory_Read_top, ?_, ?_⟩
  · intro v
    simp [Memory.Write, mainMemory_length]
  · exact Step_of_fault _ _ mainMemory_Read_top

/-! ## Dispatch -/

/-- C11: for every state whose program counter is inside the memory, with
`op` the byte there, `Step` completes if and only if `op` is `0x00` or `0x80`,
and for every other `op` it fails with the unimplemented-opcode panic. -/
theorem Step_completes_iff (c : CPU) (op : Nat) (hop : c.Memory.Read c.PC = .ok op) :
    ((∃ c', c.Step = .ok c') ↔ (op = 0x00 ∨ op = 0x80)) ∧
    (¬ (op = 0x00 ∨ op = 0x80) →
      ∃ addr c', c.Step = .error (.unimplementedOpcode op addr, c')) := by
  have hbad : ¬ (op = 0x00 ∨ op = 0x80) →
      ∃ addr c', c.Step = .error (.unimplementedOpcode op addr, c') := by
    intro h
    exact ⟨_, _, Step_of_other c op hop (fun h0 => h (Or.inl h0)) (fun h8 => h (Or.inr h8))⟩
  refine ⟨⟨?_, ?_⟩, hbad⟩
  · rintro ⟨c', hc⟩
    by_contra h
    obtain ⟨addr, d, hd⟩ := hbad h
    rw [hd] at hc
    cases hc
  · rintro (h0 | h8)
    · subst h0
      exact ⟨_, Step_of_nop c hop⟩
    · subst h8
      exact ⟨_, Step_of_add c hop⟩

/-- C11 at address 2 of the memory `[0x00, 0x80, 0xFF]`: the opcode `0xFF` is
neither `0x00` nor `0x80`, and `Step` fails with the unimplemented-opcode
panic. -/
theorem Step_completes_iff_witness :
    pairsAtBadOpcode.Memory.Read pairsAtBadOpcode.PC = .ok 0xFF ∧
    ¬ ((0xFF : Nat) = 0x00 ∨ (0xFF : Nat) = 0x80) ∧
    ∃ addr c', pairsAtBadOpcode.Step = .error (.unimplementedOpcode 0xFF addr, c') :=
  ⟨rfl, by decide, (Step_completes_iff pairsAtBadOpcode 0xFF rfl).2 (by decide)⟩

/-! ## Pairs and their halves -/

theorem pair_eq_halves (x : Nat) (hx : x < 65536) :
    x = ((((x >>> 8) % 256) <<< 8) % 65536) ||| ((x &&& 0xFF) % 256) := by
  rw [shl8, shr8, and_ff]
  have h : x / 256 % 256 * 256 % 65536 = 256 * (x / 256) := by omega
  rw [h, or_hi_lo _ _ (Nat.mod_lt _ (by decide))]
  omega

theorem setHi_same (x : Nat) (hx : x < 65536) :
    ((((x >>> 8) % 256) <<< 8) % 65536) ||| (x &&& 0x00FF) = x := by
  rw [setHi_eq, shr8]
  omega

theorem setLo_same (x : Nat) (hx : x < 65536) :
    (x &&& 0xFF00) ||| ((x &&& 0xFF) % 256) = x := by
  rw [and_ff, setLo_eq _ _ (Nat.mod_lt _ (by decide))]
  omega

theorem pairsCPU_WF : pairsCPU.WF := by
  unfold CPU.WF
  decide

/-- C12: for every state whose registers are in the `uint16` range, each pair
is the concatenation of its halves as read by the getters
(`AF == (A() << 8) | F()` in 16-bit arithmetic, and the same for `BC`, `DE`,
`HL`), and writing a half that was just read leaves the state unchanged. -/
theorem pair_is_concatenation_of_halves (c : CPU) (hc : c.WF) :
    (c.AF = ((c.A <<< 8) % 65536) ||| c.F ∧
     c.BC = ((c.B <<< 8) % 65536) ||| c.C ∧
     c.DE = ((c.D <<< 8) % 65536) ||| c.E ∧
     c.HL = ((c.H <<< 8) % 65536) ||| c.L) ∧
    ((c.SetA c.A = c ∧ c.SetF c.F = c) ∧
     (c.SetB c.B = c ∧ c.SetC c.C = c) ∧
     (c.SetD c.D = c ∧ c.SetE c.E = c) ∧
     (c.SetH c.H = c ∧ c.SetL c.L = c)) := by
  obtain ⟨hAF, hBC, hDE, hHL, -⟩ := hc
  refine ⟨⟨pair_eq_halves _ hAF, pair_eq_halves _ hBC, pair_eq_halves _ hDE,
    pair_eq_halves _ hHL⟩, ⟨?_, ?_⟩, ⟨?_, ?_⟩, ⟨?_, ?_⟩, ⟨?_, ?_⟩⟩
  · simp only [CPU.SetA, CPU.A, setHi_same _ hAF]
  · simp only [CPU.SetF, CPU.F, setLo_same _ hAF]
  · simp only [CPU.SetB, CPU.B, setHi_same _ hBC]
  · simp only [CPU.SetC, CPU.C, setLo_same _ hBC]
  · simp only [CPU.SetD, CPU.D, setHi_same _ hDE]
  · simp only [CPU.SetE, CPU.E, setLo_same _ hDE]
  · simp only [CPU.SetH, CPU.H, setHi_same _ hHL]
  · simp only [CPU.SetL, CPU.L, setLo_same _ hHL]

/-- C12 at the state with pairs `0x1234`, `0x5678`, `0x9ABC`, `0xDEF0`. -/
theorem pair_is_concatenation_of_halves_witness :
    pairsCPU.WF ∧
    (pairsCPU.AF = ((pairsCPU.A <<< 8) % 65536) ||| pairsCPU.F ∧
     pairsCPU.BC = ((pairsCPU.B <<< 8) % 65536) ||| pairsCPU.C ∧
     pairsCPU.DE = ((pairsCPU.D <<< 8) % 65536) ||| pairsCPU.E ∧
     pairsCPU.HL = ((pairsCPU.H <<< 8) % 65536) ||| pairsCPU.L) :=
  ⟨pairsCPU_WF, (pair_is_concatenation_of_halves pairsCPU pairsCPU_WF).1⟩

/-! ## The two synchronisation operations -/

set_option maxRecDepth 100000 in
theorem byte_flag_bits (f : Nat) (hf : f < 256) :
    f &&& 0xF0 = f - f % 16 ∧
    (decide ((f &&& 0x80) ≠ 0) = f.testBit 7 ∧ decide ((f &&& 0x40) ≠ 0) = f.testBit 6 ∧
     decide ((f &&& 0x20) ≠ 0) = f.testBit 5 ∧ decide ((f &&& 0x10) ≠ 0) = f.testBit 4) ∧
    FlagBits.pack
      { Z := decide ((f &&& 0x80) ≠ 0), N := decide ((f &&& 0x40) ≠ 0)
        H := decide ((f &&& 0x20) ≠ 0), C := decide ((f &&& 0x10) ≠ 0) } = f &&& 0xF0 := by
  revert f
  decide

set_option maxRecDepth 100000 in
theorem byte_high_nibble (f : Nat) (hf : f < 256) :
    f &&& 0xF0 < 256 ∧
    decide (((f &&& 0xF0) &&& 0x80) ≠ 0) = decide ((f &&& 0x80) ≠ 0) ∧
    decide (((f &&& 0xF0) &&& 0x40) ≠ 0) = decide ((f &&& 0x40) ≠ 0) ∧
    decide (((f &&& 0xF0) &&& 0x20) ≠ 0) = decide ((f &&& 0x20) ≠ 0) ∧
    decide (((f &&& 0xF0) &&& 0x10) ≠ 0) = decide ((f &&& 0x10) ≠ 0) := by
  revert f
  decide

theorem F_lt (c : CPU) : c.F < 256 := Nat.mod_lt _ (by decide)

theorem F_SetA (c : CPU) (v : Nat) : (c.SetA v).F = c.F := lo_of_setHi c.AF v

theorem F_SetF (c : CPU) (v : Nat) (hv : v < 256) : (c.SetF v).F = v :=
  lo_of_setLo c.AF v hv

theorem readFlags_Flags (c : CPU) :
    c.readFlags.Flags =
      { Z := decide ((c.F &&& 0x80) ≠ 0), N := decide ((c.F &&& 0x40) ≠ 0)
        H := decide ((c.F &&& 0x20) ≠ 0), C := decide ((c.F &&& 0x10) ≠ 0) } := rfl

/-- C13: for every state, `updateFlags` makes the low half of `AF` equal to
`0x80*[Z] + 0x40*[N] + 0x20*[H] + 0x10*[C]` (so bits 3..0 are zero and the old
flags byte plays no part), and leaves `A()`, the four booleans, `BC`, `DE`,
`HL`, `PC`, `SP` and the memory unchanged. -/
theorem updateFlags_packs_flags (c : CPU) :
    c.updateFlags.F = 0x80 * c.Flags.Z.toNat + 0x40 * c.Flags.N.toNat
        + 0x20 * c.Flags.H.toNat + 0x10 * c.Flags.C.toNat ∧
    (c.updateFlags.F.testBit 7 = c.Flags.Z ∧ c.updateFlags.F.testBit 6 = c.Flags.N ∧
     c.updateFlags.F.testBit 5 = c.Flags.H ∧ c.updateFlags.F.testBit 4 = c.Flags.C ∧
     c.updateFlags.F &&& 0x0F = 0) ∧
    c.updateFlags.A = c.A ∧ c.updateFlags.Flags = c.Flags ∧
    c.updateFlags.BC = c.BC ∧ c.updateFlags.DE = c.DE ∧ c.updateFlags.HL = c.HL ∧
    c.updateFlags.PC = c.PC ∧ c.updateFlags.SP = c.SP ∧
    c.updateFlags.Memory = c.Memory := by
  refine ⟨?_, ?_, A_updateFlags c, rfl, rfl, rfl, rfl, rfl, rfl, rfl⟩
  · rw [F_updateFlags, pack_eq]
  · rw [F_updateFlags]
    rcases c.Flags with ⟨z, n, h, k⟩
    cases z <;> cases n <;> cases h <;> cases k <;> decide

/-- C14: for every state, `readFlags` sets `Z`, `N`, `H`, `C` to bits 7, 6, 5,
4 of `F()`; the result does not depend on bits 3..0 of `F()` nor on the
accumulator half; `AF`, `BC`, `DE`, `HL`, `PC`, `SP` and the memory are
unchanged. -/
theorem readFlags_unpacks_bits (c : CPU) :
    (c.readFlags.Flags.Z = c.F.testBit 7 ∧ c.readFlags.Flags.N = c.F.testBit 6 ∧
     c.readFlags.Flags.H = c.F.testBit 5 ∧ c.readFlags.Flags.C = c.F.testBit 4) ∧
    (c.SetF (c.F &&& 0xF0)).readFlags.Flags = c.readFlags.Flags ∧
    (∀ v, (c.SetA v).readFlags.Flags = c.readFlags.Flags) ∧
    c.readFlags.AF = c.AF ∧ c.readFlags.BC = c.BC ∧ c.readFlags.DE = c.DE ∧
    c.readFlags.HL = c.HL ∧ c.readFlags.PC = c.PC ∧ c.readFlags.SP = c.SP ∧
    c.readFlags.Memory = c.Memory := by
  have hbits := (byte_flag_bits c.F (F_lt c)).2.1
  refine ⟨?_, ?_, ?_, rfl, rfl, rfl, rfl, rfl, rfl, rfl⟩
  · rw [readFlags_Flags]
    exact hbits
  · obtain ⟨hlt, hz, hn, hh, hk⟩ := byte_high_nibble c.F (F_lt c)
    rw [readFlags_Flags, readFlags_Flags, F_SetF _ _ hlt, hz, hn, hh, hk]
  · intro v
    rw [readFlags_Flags, readFlags_Flags, F_SetA]

/-! ## Flags of an addition -/

theorem add_flags_eq (a b : Nat) (ha : a < 256) (hb : b < 256) :
    decide ((((a + b) % 65536) &&& 0xFF) = 0) = decide ((a + b) &&& 0xFF = 0) ∧
    decide (((a &&& 0x0F) + (b &&& 0x0F)) % 256 > 0x0F)
      = decide ((a &&& 0xF) + (b &&& 0xF) > 0xF) ∧
    decide ((a + b) % 65536 > 0xFF) = decide (a + b > 0xFF) := by
  refine ⟨?_, ?_, ?_⟩
  · rw [and_ff, and_ff]
    congr 1
    apply propext
    constructor <;> intro h <;> omega
  · rw [and_0f, and_0f]
    congr 1
    apply propext
    constructor <;> intro h <;> omega
  · congr 1
    apply propext
    constructor <;> intro h <;> omega

/-- C15: for every state with `A = a`, `B = b` whose memory holds `0x80` at
the program counter, after `Step` the flags byte is
`0x80*[(a+b)&0xFF == 0] + 0x20*[(a&0xF)+(b&0xF) > 0xF] + 0x10*[a+b > 0xFF]`,
with bit 6 and bits 3..0 zero, whatever `F` held before, and `A()` is the low
8 bits of the sum. -/
theorem Step_add_syncs_F (c : CPU) (a b : Nat)
    (ha : c.A = a) (hb : c.B = b) (hop : c.Memory.Read c.PC = .ok 0x80) :
    ∃ c', c.Step = .ok c' ∧
      c'.F = 0x80 * (decide ((a + b) &&& 0xFF = 0)).toNat
        + 0x20 * (decide ((a &&& 0xF) + (b &&& 0xF) > 0xF)).toNat
        + 0x10 * (decide (a + b > 0xFF)).toNat ∧
      c'.F &&& 0x4F = 0 ∧
      c'.A = (a + b) &&& 0xFF := by
  have hA := A_lt c
  have hB := B_lt c
  subst ha hb
  obtain ⟨hz, hh, hk⟩ := add_flags_eq c.A c.B hA hB
  have hF : ∀ d : CPU, (CPU.updateFlags d).F = d.Flags.pack := F_updateFlags
  have key : ∀ z h k : Bool,
      FlagBits.pack { Z := z, N := false, H := h, C := k }
        = 0x80 * z.toNat + 0x20 * h.toNat + 0x10 * k.toNat ∧
      FlagBits.pack { Z := z, N := false, H := h, C := k } &&& 0x4F = 0 := by
    decide
  refine ⟨_, Step_of_add c hop, ?_, ?_, ?_⟩
  · rw [hF]
    show FlagBits.pack { Z := _, N := false, H := _, C := _ } = _
    rw [hz, hh, hk]
    exact (key _ _ _).1
  · rw [hF]
    exact (key _ _ _).2
  · rw [A_updateFlags, A_SetA _ _ (Nat.mod_lt _ (by decide)), and_ff, and_ff]
    omega

/-- C15 at `A = 0xFF`, `B = 0x01` with a prior flags byte `0x4F`: the step
leaves `F = 0xB0` and `A = 0x00`. -/
theorem Step_add_syncs_F_witness :
    carryCPU.A = 0xFF ∧ carryCPU.B = 0x01 ∧ carryCPU.F = 0x4F ∧
    carryCPU.Memory.Read carryCPU.PC = .ok 0x80 ∧
    ∃ c', carryCPU.Step = .ok c' ∧
      c'.F = 0x80 * (decide ((0xFF + 0x01) &&& 0xFF = 0)).toNat
        + 0x20 * (decide ((0xFF &&& 0xF) + (0x01 &&& 0xF) > 0xF)).toNat
        + 0x10 * (decide (0xFF + 0x01 > 0xFF)).toNat ∧
      c'.F &&& 0x4F = 0 ∧
      c'.A = (0xFF + 0x01) &&& 0xFF :=
  ⟨rfl, rfl, rfl, rfl, Step_add_syncs_F carryCPU 0xFF 0x01 rfl rfl rfl⟩

/-- C16: `SetFlagsADD` never assigns `N`: for every state, result and operand
the boolean `N` after the call is the one before it.  On the state with
`A = 0x10` and `N` set, `SetFlagsADD(0x30, 0x20)` leaves `N` set. -/
theorem SetFlagsADD_leaves_N :
    (∀ (c : CPU) (result operand : Nat),
      (c.SetFlagsADD result operand).Flags.N = c.Flags.N) ∧
    afterSubCPU.A = 0x10 ∧ afterSubCPU.Flags.N = true ∧
    (afterSubCPU.SetFlagsADD (0x10 + 0x20) 0x20).Flags
      = { Z := false, N := true, H := false, C := false } :=
  ⟨fun _ _ _ => rfl, rfl, rfl, rfl⟩

/-! ## The failure path of `Step` -/

/-- C17: for every state whose memory holds an opcode `op` other than `0x00`
and `0x80` at its program counter `p`, `Step` fails with `PC = p + 2` modulo
`2^16` at the moment of failure, and the address in the panic is `PC - 1` of
that final `PC` (in 16-bit arithmetic), which is `p + 1` modulo `2^16`. -/
theorem Step_unimplemented_double_increment (c : CPU) (op : Nat)
    (hop : c.Memory.Read c.PC = .ok op) (h0 : op ≠ 0x00) (h80 : op ≠ 0x80) :
    ∃ addr c', c.Step = .error (.unimplementedOpcode op addr, c') ∧
      c'.PC = (c.PC + 2) % 65536 ∧
      addr = (c'.PC + 65535) % 65536 ∧
      addr = (c.PC + 1) % 65536 := by
  refine ⟨_, _, Step_of_other c op hop h0 h80, ?_, rfl, ?_⟩
  · show ((c.PC + 1) % 65536 + 1) % 65536 = (c.PC + 2) % 65536
    omega
  · omega

/-- C17 at address 2 of the memory `[0x00, 0x80, 0xFF]`: the failure state has
`PC = 4` and the panic carries the address 3. -/
theorem Step_unimplemented_double_increment_witness :
    pairsAtBadOpcode.Memory.Read pairsAtBadOpcode.PC = .ok 0xFF ∧
    (0xFF : Nat) ≠ 0x00 ∧ (0xFF : Nat) ≠ 0x80 ∧
    ∃ addr c', pairsAtBadOpcode.Step = .error (.unimplementedOpcode 0xFF addr, c') ∧
      c'.PC = (2 + 2) % 65536 ∧
      addr = (c'.PC + 65535) % 65536 ∧
      addr = (2 + 1) % 65536 :=
  ⟨rfl, by decide, by decide,
    Step_unimplemented_double_increment pairsAtBadOpcode 0xFF rfl (by decide) (by decide)⟩

/-! ## Frame of a memory write and of the add opcode -/

/-- C18: for every memory, every address inside `RAM` and every value `v`,
`Write(addr, v)` completes; afterwards `Read(addr)` is `v`, `Read` at every
other address is what it was, and the length of `RAM` is unchanged. -/
theorem Write_changes_one_byte (m : Memory) (addr v : Nat) (h : addr < m.RAM.length) :
    ∃ m', m.Write addr v = .ok m' ∧
      m'.Read addr = .ok v ∧
      (∀ other, other ≠ addr → m'.Read other = m.Read other) ∧
      m'.RAM.length = m.RAM.length := by
  refine ⟨{ m with RAM := m.RAM.set addr v }, by simp [Memory.Write, h], ?_, ?_, ?_⟩
  · simp [Memory.Read, h]
  · intro other hne
    have hne' : addr ≠ other := fun e => hne e.symm
    simp [Memory.Read, List.getElem?_set_ne hne']
  · simp

/-- C18 on the memory `[0x00, 0x80, 0xFF]`: writing `0x12` at address 1. -/
theorem Write_changes_one_byte_witness :
    (1 : Nat) < pairsCPU.Memory.RAM.length ∧
    ∃ m', pairsCPU.Memory.Write 1 0x12 = .ok m' ∧
      m'.Read 1 = .ok 0x12 ∧
      (∀ other, other ≠ 1 → m'.Read other = pairsCPU.Memory.Read other) ∧
      m'.RAM.length = pairsCPU.Memory.RAM.length :=
  ⟨by decide, Write_changes_one_byte pairsCPU.Memory 1 0x12 (by decide)⟩

/-- C19: for every state whose memory holds `0x80` at its program counter,
`Step` completes and `BC` (hence `B()`), `DE`, `HL`, `SP` and the memory
(every byte of it and its length) are as before the step. -/
theorem Step_add_frame (c : CPU) (hop : c.Memory.Read c.PC = .ok 0x80) :
    ∃ c', c.Step = .ok c' ∧
      c'.BC = c.BC ∧ c'.B = c.B ∧ c'.DE = c.DE ∧ c'.HL = c.HL ∧ c'.SP = c.SP ∧
      c'.Memory = c.Memory ∧
      c'.Memory.RAM.length = c.Memory.RAM.length ∧
      (∀ addr, c'.Memory.Read addr = c.Memory.Read addr) :=
  ⟨_, Step_of_add c hop, rfl, rfl, rfl, rfl, rfl, rfl, rfl, fun _ => rfl⟩

/-- C19 at address 1 of the memory `[0x00, 0x80, 0xFF]`, with pairs `0x5678`,
`0x9ABC`, `0xDEF0` and `SP = 0xFFFE`. -/
theorem Step_add_frame_witness :
    pairsAtAdd.Memory.Read pairsAtAdd.PC = .ok 0x80 ∧
    ∃ c', pairsAtAdd.Step = .ok c' ∧
      c'.BC = 0x5678 ∧ c'.B = 0x56 ∧ c'.DE = 0x9ABC ∧ c'.HL = 0xDEF0 ∧ c'.SP = 0xFFFE ∧
      c'.Memory = pairsAtAdd.Memory ∧
      c'.Memory.RAM.length = pairsAtAdd.Memory.RAM.length ∧
      (∀ addr, c'.Memory.Read addr = pairsAtAdd.Memory.Read addr) :=
  ⟨rfl, Step_add_frame pairsAtAdd rfl⟩

/-! ## Register to booleans and back -/

/-- C20: for every state with `AF` in the `uint16` range, `readFlags` followed
by `updateFlags` leaves `A()` unchanged and makes `F()` equal to `F() & 0xF0`;
`AF` is restored exactly if and only if the low nibble of `F()` was zero, and
a byte with a non-zero low nibble written by `SetF` does not survive. -/
theorem readFlags_updateFlags_masks_F (c : CPU) (hAF : c.AF < 65536) :
    c.readFlags.updateFlags.A = c.A ∧
    c.readFlags.updateFlags.F = c.F &&& 0xF0 ∧
    (c.readFlags.updateFlags.AF = c.AF ↔ c.F &&& 0x0F = 0) ∧
    (∀ v, v < 256 → v &&& 0x0F ≠ 0 → (c.SetF v).readFlags.updateFlags.F ≠ v) := by
  have hmask : ∀ d : CPU, d.readFlags.updateFlags.F = d.F &&& 0xF0 := by
    intro d
    rw [F_updateFlags, readFlags_Flags]
    exact (byte_flag_bits d.F (F_lt d)).2.2
  refine ⟨A_updateFlags c.readFlags, hmask c, ?_, ?_⟩
  · have hpack : c.readFlags.Flags.pack = c.F &&& 0xF0 := by
      rw [readFlags_Flags]
      exact (byte_flag_bits c.F (F_lt c)).2.2
    have hAF' : c.readFlags.updateFlags.AF
        = 256 * (c.AF / 256 % 256) + c.readFlags.Flags.pack :=
      setLo_eq c.AF _ (pack_lt _)
    have hF : c.F = c.AF % 256 := by
      simp only [CPU.F, and_ff, Nat.mod_mod]
    rw [hAF', hpack, (byte_flag_bits c.F (F_lt c)).1, and_0f, hF]
    constructor <;> intro h <;> omega
  · intro v hv hlow
    rw [hmask, F_SetF _ _ hv, (byte_flag_bits v hv).1]
    rw [and_0f] at hlow
    omega

/-- C20 at `AF = 0x1234`: the flags byte `0x34` becomes `0x30`, so `AF` is not
restored. -/
theorem readFlags_updateFlags_masks_F_witness :
    pairsCPU.AF < 65536 ∧
    pairsCPU.readFlags.updateFlags.A = pairsCPU.A ∧
    pairsCPU.readFlags.updateFlags.F = pairsCPU.F &&& 0xF0 ∧
    (pairsCPU.readFlags.updateFlags.AF = pairsCPU.AF ↔ pairsCPU.F &&& 0x0F = 0) :=
  ⟨by decide,
    (readFlags_updateFlags_masks_F pairsCPU (by decide)).1,
    (readFlags_updateFlags_masks_F pairsCPU (by decide)).2.1,
    (readFlags_updateFlags_masks_F pairsCPU (by decide)).2.2.1⟩

end Chip8
